import Mathlib

/-!
Shallow embedding of the prediction-market contract
(src/contract/src/lib.rs) and verification of its specification.

Modelling conventions:
- Machine integers (u128 Balance, u64 ids, u8 option indices) are
  represented as Nat; where the Rust arithmetic can wrap (release-profile
  two's-complement wrapping), the embedding applies an explicit
  modulus (% W128 for u128 products/sums/additions, % W64 for the u64
  market-id counter).  A u8 cast is an explicit % 256.
- The Rust methods mutate the receiver through a mutable reference and
  return Result; the embedding passes the state explicitly and returns
  a pair of an Except value (with the exact source error strings) and
  the successor state, so that the absence of partial mutation on
  failure is a provable property rather than a modelling assumption.
- SCALE encoding/decoding of payloads is performed by the external
  parity-scale-codec library, not by code of this repository; the
  callback payload's output bytes are modelled by their decode outcome
  (an Option ResolutionResult), and the outbound request input by the
  structured MarketResolutionRequest value it encodes.  The contract
  only branches on decode success and on the decoded fields.
- Markets and positions are stored as association lists exactly as in
  the source (Vec of key/value pairs, first-match lookup and update).
-/

/-! ## Definitions: the shallow embedding of the contract and the
concrete states used by the verification below. -/

instance {ε α : Type} [DecidableEq ε] [DecidableEq α] : DecidableEq (Except ε α) := fun x y =>
  match x, y with
  | .ok a, .ok b =>
    if h : a = b then .isTrue (by rw [h]) else .isFalse (fun hh => h (Except.ok.inj hh))
  | .error a, .error b =>
    if h : a = b then .isTrue (by rw [h]) else .isFalse (fun hh => h (Except.error.inj hh))
  | .ok _, .error _ => .isFalse (fun hh => Except.noConfusion hh)
  | .error _, .ok _ => .isFalse (fun hh => Except.noConfusion hh)

/-- 2^128, the modulus of the u128 Balance type. -/
def W128 : Nat := 2 ^ 128

/-- 2^64, the modulus of the u64 MarketId type. -/
def W64 : Nat := 2 ^ 64

/-- Account identifier; 32 opaque bytes in the source, only ever compared
for equality, modelled as Nat. -/
abbrev AccountId := Nat

/-- Block number (u64 in the source). -/
abbrev BlockNumber := Nat

/-- Balance type (u128 in the source). -/
abbrev Balance := Nat

/-- Market identifier (u64 in the source). -/
abbrev MarketId := Nat

/-- Option index within a market (u8 in the source). -/
abbrev OptionIndex := Nat

/-- Maximum number of options per market. -/
def MAX_OPTIONS : Nat := 10

/-- Status of a prediction market. -/
inductive MarketStatus
  | Open
  | PendingResolution
  | Resolved
deriving DecidableEq

/-- A prediction market with multiple options. -/
structure Market where
  id : MarketId
  question : String
  options : List String
  resolution_criteria : String
  resolution_source : String
  creator : AccountId
  resolution_deadline : BlockNumber
  shares_per_option : List Balance
  status : MarketStatus
  winning_option : Option OptionIndex
deriving DecidableEq

/-- Total pool across all options.  The source sums u128 values with
iterator sum, which wraps on overflow in a release build; hence the
explicit modulus. -/
def Market.total_pool (m : Market) : Balance :=
  m.shares_per_option.sum % W128

/-- Check if this is a binary market. -/
def Market.is_binary (m : Market) : Bool :=
  m.options.length == 2

/-- A user's position in a market (shares per option). -/
structure Position where
  shares : List Balance
deriving DecidableEq

/-- Create a new position with the given number of options. -/
def Position.new (num_options : Nat) : Position :=
  { shares := List.replicate num_options 0 }

/-- Contract configuration. -/
structure Config where
  admin : AccountId
  market_creator_agent : Option AccountId
  resolver_oracle_agent : Option AccountId
deriving DecidableEq

/-- Request sent to the resolver oracle agent. -/
structure MarketResolutionRequest where
  market_id : MarketId
  question : String
  options : List String
  resolution_criteria : String
  resolution_source : String
deriving DecidableEq

/-- Callback specification for the agent response.  The selector is four
bytes in the source, modelled as the list of byte values. -/
structure CallbackSpec where
  selector : List Nat
  gas_limit : Nat
deriving DecidableEq

/-- Full request to the chain extension.  The input field holds the
SCALE encoding of a MarketResolutionRequest in the source; encoding is
library code, so the structured value being encoded is stored. -/
structure ContractAgentRequest where
  target_agent : AccountId
  input : MarketResolutionRequest
  ttl_blocks : Nat
  callback : Option CallbackSpec
deriving DecidableEq

/-- Resolution result decoded from the oracle callback payload. -/
structure ResolutionResult where
  market_id : MarketId
  winning_option : OptionIndex
  confidence_pct : Nat
  evidence_summary : String
deriving DecidableEq

/-- Payload delivered in the callback.  The output field carries raw
bytes in the source which the contract immediately SCALE-decodes via
the external codec library; it is modelled by the decode outcome:
some r when the bytes decode to the ResolutionResult r, none when
decoding fails. -/
structure AgentCallbackPayload where
  request_id : Nat
  run_id : Nat
  success : Bool
  output : Option ResolutionResult
deriving DecidableEq

/-- Contract storage layout. -/
structure PredictionMarket where
  config : Config
  next_market_id : MarketId
  markets : List (MarketId × Market)
  positions : List ((MarketId × AccountId) × Position)
  pending_resolutions : List (MarketId × Nat)
deriving DecidableEq

/-- First-match lookup in the markets list (iter().find on ids). -/
def findMarket : List (MarketId × Market) → MarketId → Option Market
  | [], _ => none
  | (i, m) :: t, market_id => if i = market_id then some m else findMarket t market_id

/-- In-place mutation of the first market entry with the given id
(iter_mut().find on ids). -/
def updateMarket : List (MarketId × Market) → MarketId → (Market → Market) → List (MarketId × Market)
  | [], _, _ => []
  | (i, m) :: t, market_id, f =>
    if i = market_id then (i, f m) :: t else (i, m) :: updateMarket t market_id f

/-- First-match lookup in the positions list. -/
def findPos : List ((MarketId × AccountId) × Position) → MarketId × AccountId → Option Position
  | [], _ => none
  | (k, p) :: t, key => if k = key then some p else findPos t key

/-- In-place mutation of the first position entry with the given key. -/
def updatePos : List ((MarketId × AccountId) × Position) → MarketId × AccountId → Position →
    List ((MarketId × AccountId) × Position)
  | [], _, _ => []
  | (k, p) :: t, key, newp =>
    if k = key then (k, newp) :: t else (k, p) :: updatePos t key newp

/-- Removal of the first position entry with the given key
(Vec::remove at the index found by iter().position). -/
def removePos : List ((MarketId × AccountId) × Position) → MarketId × AccountId →
    List ((MarketId × AccountId) × Position)
  | [], _ => []
  | (k, p) :: t, key => if k = key then t else (k, p) :: removePos t key

/-- Initialize the contract with an admin. -/
def PredictionMarket.new (admin : AccountId) : PredictionMarket :=
  { config := { admin := admin, market_creator_agent := none, resolver_oracle_agent := none },
    next_market_id := 0,
    markets := [],
    positions := [],
    pending_resolutions := [] }

/-- Set the market creator agent address (admin only). -/
def PredictionMarket.set_market_creator (s : PredictionMarket) (caller agent_id : AccountId) :
    Except String Unit × PredictionMarket :=
  if caller ≠ s.config.admin then
    (.error "Only admin can set market creator", s)
  else
    (.ok (), { s with config := { s.config with market_creator_agent := some agent_id } })

/-- Set the resolver oracle agent address (admin only). -/
def PredictionMarket.set_resolver_oracle (s : PredictionMarket) (caller agent_id : AccountId) :
    Except String Unit × PredictionMarket :=
  if caller ≠ s.config.admin then
    (.error "Only admin can set resolver oracle", s)
  else
    (.ok (), { s with config := { s.config with resolver_oracle_agent := some agent_id } })

/-- Create a new prediction market (market creator agent only). -/
def PredictionMarket.create_market (s : PredictionMarket) (caller : AccountId) (question : String)
    (options : List String) (resolution_criteria resolution_source : String)
    (resolution_deadline : BlockNumber) : Except String MarketId × PredictionMarket :=
  match s.config.market_creator_agent with
  | none => (.error "Market creator agent not configured", s)
  | some creator_agent =>
    if caller ≠ creator_agent then
      (.error "Only market creator agent can create markets", s)
    else if options.length < 2 then
      (.error "Market must have at least 2 options", s)
    else if options.length > MAX_OPTIONS then
      (.error "Too many options", s)
    else
      let market_id := s.next_market_id
      let market : Market :=
        { id := market_id,
          question := question,
          options := options,
          resolution_criteria := resolution_criteria,
          resolution_source := resolution_source,
          creator := caller,
          resolution_deadline := resolution_deadline,
          shares_per_option := List.replicate options.length 0,
          status := .Open,
          winning_option := none }
      (.ok market_id,
       { s with next_market_id := (s.next_market_id + 1) % W64,
                markets := s.markets ++ [(market_id, market)] })

/-- The in-place update that place_bet performs on the found market:
add the amount (wrapping u128 addition) to the share slot of the chosen
option. -/
def bumpSlot (option_index : OptionIndex) (amount : Balance) (mm : Market) : Market :=
  let slot := (mm.shares_per_option.getD option_index 0 + amount) % W128
  { mm with shares_per_option := mm.shares_per_option.set option_index slot }

/-- Place a bet on a specific option.  The share slot additions are
wrapping u128 additions; a fresh position stores the amount directly. -/
def PredictionMarket.place_bet (s : PredictionMarket) (caller : AccountId) (market_id : MarketId)
    (option_index : OptionIndex) (amount : Balance) : Except String Unit × PredictionMarket :=
  match findMarket s.markets market_id with
  | none => (.error "Market not found", s)
  | some market =>
    if market.status ≠ .Open then
      (.error "Market is not open for betting", s)
    else if market.options.length ≤ option_index then
      (.error "Invalid option index", s)
    else
      let markets' := updateMarket s.markets market_id (bumpSlot option_index amount)
      let positions' :=
        match findPos s.positions (market_id, caller) with
        | some pos =>
          let padded := pos.shares ++ List.replicate (market.options.length - pos.shares.length) 0
          updatePos s.positions (market_id, caller)
            { shares := padded.set option_index ((padded.getD option_index 0 + amount) % W128) }
        | none =>
          s.positions ++
            [((market_id, caller),
              { shares := (List.replicate market.options.length 0).set option_index amount })]
      (.ok (), { s with markets := markets', positions := positions' })

/-- The status write performed by request_resolution on the found market. -/
def setPendingStatus (m : Market) : Market :=
  { m with status := .PendingResolution }

/-- The resolution write performed by on_resolution_complete on the found
market. -/
def setResolvedStatus (w : OptionIndex) (m : Market) : Market :=
  { m with status := .Resolved, winning_option := some w }

/-- Request market resolution (anyone can call after the deadline).
Returns the agent request to be sent via the chain extension. -/
def PredictionMarket.request_resolution (s : PredictionMarket) (market_id : MarketId)
    (current_block : BlockNumber) : Except String ContractAgentRequest × PredictionMarket :=
  match findMarket s.markets market_id with
  | none => (.error "Market not found", s)
  | some market =>
    if current_block < market.resolution_deadline then
      (.error "Resolution deadline not reached", s)
    else if market.status ≠ .Open then
      (.error "Market is not open", s)
    else
      match s.config.resolver_oracle_agent with
      | none => (.error "Resolver oracle not configured", s)
      | some resolver =>
        (.ok { target_agent := resolver,
               input := { market_id := market_id,
                          question := market.question,
                          options := market.options,
                          resolution_criteria := market.resolution_criteria,
                          resolution_source := market.resolution_source },
               ttl_blocks := 100,
               callback := some { selector := [4, 0, 0, 1], gas_limit := 1000000000 } },
         { s with markets := updateMarket s.markets market_id setPendingStatus })

/-- Handle the resolution callback from the oracle agent. -/
def PredictionMarket.on_resolution_complete (s : PredictionMarket)
    (callback_payload : AgentCallbackPayload) : Except String Unit × PredictionMarket :=
  if callback_payload.success = false then
    (.error "Oracle agent failed to resolve", s)
  else
    match callback_payload.output with
    | none => (.error "Failed to decode resolution result", s)
    | some result =>
      match findMarket s.markets result.market_id with
      | none => (.error "Market not found", s)
      | some market =>
        if market.status ≠ .PendingResolution then
          (.error "Market is not pending resolution", s)
        else if market.options.length ≤ result.winning_option then
          (.error "Invalid winning option index", s)
        else
          let markets' :=
            updateMarket s.markets result.market_id (setResolvedStatus result.winning_option)
          let pending' := s.pending_resolutions.filter (fun pr => pr.1 != result.market_id)
          (.ok (), { s with markets := markets', pending_resolutions := pending' })

/-- Claim winnings from a resolved market.  The payout product is a
u128 multiplication, hence the explicit wrap; the winning-pool read
indexes shares_per_option at the winning index (in-range whenever the
market was produced by this contract, where the two lists always have
equal length). -/
def PredictionMarket.claim_winnings (s : PredictionMarket) (caller : AccountId)
    (market_id : MarketId) : Except String Balance × PredictionMarket :=
  match findMarket s.markets market_id with
  | none => (.error "Market not found", s)
  | some market =>
    if market.status ≠ .Resolved then
      (.error "Market not resolved", s)
    else
      match market.winning_option with
      | none => (.error "No winning option set", s)
      | some winning_idx =>
        match findPos s.positions (market_id, caller) with
        | none => (.error "No position in this market", s)
        | some position =>
          if position.shares.length ≤ winning_idx then
            (.error "No winning shares", s)
          else
            let winning_shares := position.shares.getD winning_idx 0
            if winning_shares = 0 then
              (.error "No winning shares", s)
            else
              let total_pool := market.total_pool
              let winning_pool := market.shares_per_option.getD winning_idx 0
              if winning_pool = 0 then
                (.error "No shares in winning option", s)
              else
                (.ok (winning_shares * total_pool % W128 / winning_pool),
                 { s with positions := removePos s.positions (market_id, caller) })

/-- Get market details. -/
def PredictionMarket.get_market (s : PredictionMarket) (market_id : MarketId) : Option Market :=
  findMarket s.markets market_id

/-- Get a user position in a market (default empty). -/
def PredictionMarket.get_position (s : PredictionMarket) (market_id : MarketId)
    (account : AccountId) : Position :=
  (findPos s.positions (market_id, account)).getD { shares := [] }

/-- Get the contract configuration. -/
def PredictionMarket.get_config (s : PredictionMarket) : Config :=
  s.config

/-- Get implied odds for each option.  The equal-odds branch divides in
u8 after casting the length (% 256); each nonzero-pool entry is a
wrapping u128 product divided by the total and cast to u8 (% 256). -/
def PredictionMarket.get_implied_odds (s : PredictionMarket) (market_id : MarketId) :
    Option (List Nat) :=
  match findMarket s.markets market_id with
  | none => none
  | some market =>
    let total := market.total_pool
    if total = 0 then
      some (List.replicate market.options.length (100 / (market.options.length % 256)))
    else
      some (market.shares_per_option.map (fun shares => shares * 100 % W128 / total % 256))

/-- Modelled from the spec: the error taxonomy of section 7.  The source
reports errors as static strings; the spec assigns each a kind (section
4.2 assigns an unconfigured creator agent AuthorizationError). -/
inductive ErrKind
  | authorizationError
  | notFoundError
  | validationError
  | stateError
  | configError
  | externalFailure
  | decodeError
  | arithmeticError
deriving DecidableEq

/-- Modelled from the spec: classification of the source's error strings
by the section 7 taxonomy. -/
def errKind (e : String) : ErrKind :=
  if e = "Only admin can set market creator" then .authorizationError
  else if e = "Only admin can set resolver oracle" then .authorizationError
  else if e = "Market creator agent not configured" then .authorizationError
  else if e = "Only market creator agent can create markets" then .authorizationError
  else if e = "Market must have at least 2 options" then .validationError
  else if e = "Too many options" then .validationError
  else if e = "Invalid option index" then .validationError
  else if e = "Invalid winning option index" then .validationError
  else if e = "Market not found" then .notFoundError
  else if e = "No position in this market" then .notFoundError
  else if e = "No winning shares" then .notFoundError
  else if e = "Market is not open for betting" then .stateError
  else if e = "Market is not open" then .stateError
  else if e = "Market not resolved" then .stateError
  else if e = "Market is not pending resolution" then .stateError
  else if e = "Resolution deadline not reached" then .stateError
  else if e = "No winning option set" then .stateError
  else if e = "Resolver oracle not configured" then .configError
  else if e = "Oracle agent failed to resolve" then .externalFailure
  else if e = "Failed to decode resolution result" then .decodeError
  else .arithmeticError

/-- C3 counterexample market: Open, deadline 10. -/
def C3cexMkt : Market :=
  { id := 0, question := "q", options := ["Yes", "No"], resolution_criteria := "c",
    resolution_source := "s", creator := 10, resolution_deadline := 10,
    shares_per_option := [0, 0], status := .Open, winning_option := none }

/-- C3 counterexample state: contains the Open market but no configured
resolver oracle agent. -/
def C3cex : PredictionMarket :=
  { config := { admin := 1, market_creator_agent := some 10, resolver_oracle_agent := none },
    next_market_id := 1, markets := [(0, C3cexMkt)], positions := [],
    pending_resolutions := [] }

/-- C3 witness state: same market, resolver oracle configured. -/
def C3wit : PredictionMarket :=
  { config := { admin := 1, market_creator_agent := some 10, resolver_oracle_agent := some 11 },
    next_market_id := 1, markets := [(0, C3cexMkt)], positions := [],
    pending_resolutions := [] }

/-- C4 witness market: PendingResolution with two options. -/
def C4mkt : Market :=
  { id := 0, question := "q", options := ["Yes", "No"], resolution_criteria := "c",
    resolution_source := "s", creator := 10, resolution_deadline := 10,
    shares_per_option := [5, 7], status := .PendingResolution, winning_option := none }

/-- C4 witness state. -/
def C4s : PredictionMarket :=
  { config := { admin := 1, market_creator_agent := some 10, resolver_oracle_agent := some 11 },
    next_market_id := 1, markets := [(0, C4mkt)], positions := [],
    pending_resolutions := [] }

/-- C4 witness envelope: successful, decoding to winning option 1. -/
def C4p : AgentCallbackPayload :=
  { request_id := 7, run_id := 9, success := true,
    output := some { market_id := 0, winning_option := 1, confidence_pct := 95,
                     evidence_summary := "ev" } }

/-- C9 counterexample market: one option holds 2^122 shares, so the u128
product shares * 100 wraps. -/
def C9cexMkt : Market :=
  { id := 0, question := "q", options := ["A", "B"], resolution_criteria := "c",
    resolution_source := "s", creator := 10, resolution_deadline := 10,
    shares_per_option := [2 ^ 122, 0], status := .Open, winning_option := none }

/-- C9 counterexample state. -/
def C9cex : PredictionMarket :=
  { config := { admin := 1, market_creator_agent := some 10, resolver_oracle_agent := none },
    next_market_id := 1, markets := [(0, C9cexMkt)], positions := [],
    pending_resolutions := [] }

/-- C9 witness market: an untouched 3-option market. -/
def C9witMkt : Market :=
  { id := 0, question := "q", options := ["A", "B", "C"], resolution_criteria := "c",
    resolution_source := "s", creator := 10, resolution_deadline := 10,
    shares_per_option := [0, 0, 0], status := .Open, winning_option := none }

/-- C9 witness state. -/
def C9wit : PredictionMarket :=
  { config := { admin := 1, market_creator_agent := some 10, resolver_oracle_agent := none },
    next_market_id := 1, markets := [(0, C9witMkt)], positions := [],
    pending_resolutions := [] }

/-- C2 failing-input market: both options hold 2^100 shares, resolved in
favour of option 0. -/
def C2mkt : Market :=
  { id := 0, question := "q", options := ["A", "B"], resolution_criteria := "c",
    resolution_source := "s", creator := 10, resolution_deadline := 10,
    shares_per_option := [2 ^ 100, 2 ^ 100], status := .Resolved, winning_option := some 0 }

/-- C2 failing-input state: account 1 holds all 2^100 winning shares. -/
def C2s : PredictionMarket :=
  { config := { admin := 1, market_creator_agent := some 10, resolver_oracle_agent := some 11 },
    next_market_id := 1, markets := [(0, C2mkt)],
    positions := [((0, 1), { shares := [2 ^ 100, 0] })],
    pending_resolutions := [] }

/-- C10 witness state, with a pre-existing pending_resolutions entry and
a failing envelope. -/
def C10s : PredictionMarket :=
  { config := { admin := 1, market_creator_agent := none, resolver_oracle_agent := none },
    next_market_id := 0, markets := [], positions := [],
    pending_resolutions := [(0, 5)] }

/-- C10 witness envelope (failure flag set). -/
def C10p : AgentCallbackPayload :=
  { request_id := 3, run_id := 4, success := false, output := none }

/-- Share count of an account's position at an option index; 0 when the
position is absent or does not extend to the index. -/
def posShare (s : PredictionMarket) (market_id : Nat) (a : Nat) (j : Nat) : Balance :=
  match findPos s.positions (market_id, a) with
  | some pos => pos.shares.getD j 0
  | none => 0

/-- C5 counterexample market: option 0 already holds 2^127 shares. -/
def C5cexMkt : Market :=
  { id := 0, question := "q", options := ["A", "B"], resolution_criteria := "c",
    resolution_source := "s", creator := 10, resolution_deadline := 10,
    shares_per_option := [2 ^ 127, 0], status := .Open, winning_option := none }

/-- C5 counterexample state: account 7 already staked 2^127 on option 0. -/
def C5cex : PredictionMarket :=
  { config := { admin := 1, market_creator_agent := some 10, resolver_oracle_agent := none },
    next_market_id := 1, markets := [(0, C5cexMkt)],
    positions := [((0, 7), { shares := [2 ^ 127, 0] })],
    pending_resolutions := [] }

/-- C5 witness market. -/
def C5witMkt : Market :=
  { id := 0, question := "q", options := ["A", "B"], resolution_criteria := "c",
    resolution_source := "s", creator := 10, resolution_deadline := 10,
    shares_per_option := [5, 7], status := .Open, winning_option := none }

/-- C5 witness state: account 1 holds [2, 0]. -/
def C5wit : PredictionMarket :=
  { config := { admin := 1, market_creator_agent := some 10, resolver_oracle_agent := none },
    next_market_id := 1, markets := [(0, C5witMkt)],
    positions := [((0, 1), { shares := [2, 0] })],
    pending_resolutions := [] }

/-- C8 witness market: resolved, option 0 wins, pool [3, 1]. -/
def C8mkt : Market :=
  { id := 0, question := "q", options := ["A", "B"], resolution_criteria := "c",
    resolution_source := "s", creator := 10, resolution_deadline := 10,
    shares_per_option := [3, 1], status := .Resolved, winning_option := some 0 }

/-- C8 witness state: account 1 holds all 3 winning shares (plus a
losing share), account 2 holds only losing shares. -/
def C8s : PredictionMarket :=
  { config := { admin := 1, market_creator_agent := some 10, resolver_oracle_agent := some 11 },
    next_market_id := 1, markets := [(0, C8mkt)],
    positions := [((0, 1), { shares := [3, 1] }), ((0, 2), { shares := [0, 1] })],
    pending_resolutions := [] }

/-- C8 witness post-claim state: account 1's position removed. -/
def C8s2 : PredictionMarket :=
  { config := { admin := 1, market_creator_agent := some 10, resolver_oracle_agent := some 11 },
    next_market_id := 1, markets := [(0, C8mkt)],
    positions := [((0, 2), { shares := [0, 1] })],
    pending_resolutions := [] }

/-- Rank of a market status along the one-directional lifecycle
Open to PendingResolution to Resolved. -/
def statusRank : MarketStatus → Nat
  | .Open => 0
  | .PendingResolution => 1
  | .Resolved => 2

/-- The per-market invariant: winning_option is set exactly on Resolved
markets, a set winning index is in range, and the share list is
index-aligned with the options. -/
def MarketInv (m : Market) : Prop :=
  (m.winning_option.isSome ↔ m.status = .Resolved)
  ∧ (∀ w, m.winning_option = some w → w < m.options.length)
  ∧ m.shares_per_option.length = m.options.length

/-- Every stored market satisfies the market invariant. -/
def StateInv (s : PredictionMarket) : Prop :=
  ∀ x ∈ s.markets, MarketInv x.2

/-- One contract operation with arbitrary arguments, successful or
failed. -/
inductive Step : PredictionMarket → PredictionMarket → Prop
  | set_creator (s : PredictionMarket) (c a : Nat) : Step s (s.set_market_creator c a).2
  | set_oracle (s : PredictionMarket) (c a : Nat) : Step s (s.set_resolver_oracle c a).2
  | create (s : PredictionMarket) (c : Nat) (q : String) (o : List String)
      (cr src : String) (dl : Nat) : Step s (s.create_market c q o cr src dl).2
  | bet (s : PredictionMarket) (c market_id idx amt : Nat) :
      Step s (s.place_bet c market_id idx amt).2
  | request (s : PredictionMarket) (market_id blk : Nat) :
      Step s (s.request_resolution market_id blk).2
  | callback (s : PredictionMarket) (p : AgentCallbackPayload) :
      Step s (s.on_resolution_complete p).2
  | claim (s : PredictionMarket) (c market_id : Nat) :
      Step s (s.claim_winnings c market_id).2

/-- States reachable from a freshly constructed contract. -/
inductive Reachable : PredictionMarket → Prop
  | init (admin : Nat) : Reachable (PredictionMarket.new admin)
  | step {s s' : PredictionMarket} : Reachable s → Step s s' → Reachable s'

/-- C6 witness market: PendingResolution. -/
def C6wmkt : Market :=
  { id := 0, question := "q", options := ["A", "B"], resolution_criteria := "c",
    resolution_source := "s", creator := 10, resolution_deadline := 10,
    shares_per_option := [1, 2], status := .PendingResolution, winning_option := none }

/-- C6 witness state. -/
def C6ws : PredictionMarket :=
  { config := { admin := 1, market_creator_agent := some 10, resolver_oracle_agent := some 11 },
    next_market_id := 1, markets := [(0, C6wmkt)], positions := [],
    pending_resolutions := [] }

/-- C6 witness envelope. -/
def C6wp : AgentCallbackPayload :=
  { request_id := 2, run_id := 3, success := true,
    output := some { market_id := 0, winning_option := 1, confidence_pct := 90,
                     evidence_summary := "ev" } }

/-- The settlement process: each listed account calls claim_winnings
exactly once, in order; payouts of successful claims are summed, failed
claims contribute nothing, and the state is threaded through. -/
def claimAll (market_id : MarketId) : PredictionMarket → List AccountId → Nat × PredictionMarket
  | s, [] => (0, s)
  | s, a :: rest =>
    match s.claim_winnings a market_id with
    | (.ok p, s2) => (p + (claimAll market_id s2 rest).1, (claimAll market_id s2 rest).2)
    | (.error _, s2) => claimAll market_id s2 rest

/-- C1 counterexample market: pool [2, 1], option 0 wins. -/
def C1mkt : Market :=
  { id := 0, question := "q", options := ["A", "B"], resolution_criteria := "c",
    resolution_source := "s", creator := 10, resolution_deadline := 10,
    shares_per_option := [2, 1], status := .Resolved, winning_option := some 0 }

/-- C1 counterexample state: accounts 1 and 2 each hold one winning
share. -/
def C1cex : PredictionMarket :=
  { config := { admin := 1, market_creator_agent := some 10, resolver_oracle_agent := some 11 },
    next_market_id := 1, markets := [(0, C1mkt)],
    positions := [((0, 1), { shares := [1, 0] }), ((0, 2), { shares := [1, 1] })],
    pending_resolutions := [] }

/-- C7 witness state: creator agent configured as account 10, no
markets yet. -/
def C7state : PredictionMarket :=
  { config := { admin := 1, market_creator_agent := some 10, resolver_oracle_agent := none },
    next_market_id := 0, markets := [], positions := [], pending_resolutions := [] }

/-- C7 witness: the market that creation stores. -/
def C7market : Market :=
  { id := 0, question := "q", options := ["Yes", "No"], resolution_criteria := "crit",
    resolution_source := "src", creator := 10, resolution_deadline := 5,
    shares_per_option := List.replicate 2 0, status := .Open, winning_option := none }

/-- C7 witness: the state after creation. -/
def C7state2 : PredictionMarket :=
  { config := { admin := 1, market_creator_agent := some 10, resolver_oracle_agent := none },
    next_market_id := 1 % W64, markets := [(0, C7market)], positions := [],
    pending_resolutions := [] }

/-! ## Theorems. -/

theorem findMarket_updateMarket_self (ms : List (MarketId × Market)) (market_id : Nat)
    (f : Market → Market) :
    findMarket (updateMarket ms market_id f) market_id = (findMarket ms market_id).map f := by
  induction ms with
  | nil => rfl
  | cons hd t ih =>
    obtain ⟨i, m⟩ := hd
    by_cases h : i = market_id
    · simp [findMarket, updateMarket, h]
    · simp [findMarket, updateMarket, h, ih]

theorem findMarket_updateMarket_ne (ms : List (MarketId × Market)) (market_id id' : Nat)
    (f : Market → Market) (h : id' ≠ market_id) :
    findMarket (updateMarket ms market_id f) id' = findMarket ms id' := by
  induction ms with
  | nil => rfl
  | cons hd t ih =>
    obtain ⟨i, m⟩ := hd
    by_cases hi : i = market_id
    · subst hi
      simp [findMarket, updateMarket, Ne.symm h]
    · by_cases hi' : i = id'
      · simp [findMarket, updateMarket, hi, hi', h]
      · simp [findMarket, updateMarket, hi, hi', ih]

theorem findMarket_mem {ms : List (MarketId × Market)} {market_id : Nat} {m : Market}
    (h : findMarket ms market_id = some m) : (market_id, m) ∈ ms := by
  induction ms with
  | nil => exact absurd h (by simp [findMarket])
  | cons hd t ih =>
    obtain ⟨i, mm⟩ := hd
    by_cases hi : i = market_id
    · subst hi
      simp [findMarket] at h
      simp [h]
    · simp [findMarket, hi] at h
      exact List.mem_cons_of_mem _ (ih h)

theorem mem_updateMarket {ms : List (MarketId × Market)} {market_id : Nat}
    {f : Market → Market} {x : MarketId × Market} (hx : x ∈ updateMarket ms market_id f) :
    x ∈ ms ∨ ∃ m, findMarket ms market_id = some m ∧ x = (market_id, f m) := by
  induction ms with
  | nil => exact absurd hx (by simp [updateMarket])
  | cons hd t ih =>
    obtain ⟨i, m⟩ := hd
    by_cases hi : i = market_id
    · subst hi
      simp only [updateMarket, if_pos rfl] at hx
      rcases List.mem_cons.mp hx with h | h
      · exact Or.inr ⟨m, by simp [findMarket], h⟩
      · exact Or.inl (List.mem_cons_of_mem _ h)
    · simp only [updateMarket, if_neg hi] at hx
      rcases List.mem_cons.mp hx with h | h
      · exact Or.inl (by simp [h])
      · rcases ih h with h' | ⟨mm, hmm, hx'⟩
        · exact Or.inl (List.mem_cons_of_mem _ h')
        · exact Or.inr ⟨mm, by simp [findMarket, hi, hmm], hx'⟩

theorem findMarket_append_left {ms : List (MarketId × Market)} {market_id : Nat} {m : Market}
    (l : List (MarketId × Market)) (h : findMarket ms market_id = some m) :
    findMarket (ms ++ l) market_id = some m := by
  induction ms with
  | nil => exact absurd h (by simp [findMarket])
  | cons hd t ih =>
    obtain ⟨i, mm⟩ := hd
    by_cases hi : i = market_id
    · subst hi
      simp [findMarket] at h ⊢
      exact h
    · simp [findMarket, hi] at h ⊢
      exact ih h

theorem findMarket_append_right {ms : List (MarketId × Market)} {market_id : Nat}
    (l : List (MarketId × Market)) (h : findMarket ms market_id = none) :
    findMarket (ms ++ l) market_id = findMarket l market_id := by
  induction ms with
  | nil => rfl
  | cons hd t ih =>
    obtain ⟨i, mm⟩ := hd
    by_cases hi : i = market_id
    · simp [findMarket, hi] at h
    · simp [findMarket, hi] at h ⊢
      exact ih h

theorem findPos_updatePos_self (ps : List ((MarketId × AccountId) × Position))
    (key : MarketId × AccountId) (newp : Position) (hp : (findPos ps key).isSome) :
    findPos (updatePos ps key newp) key = some newp := by
  induction ps with
  | nil => simp [findPos] at hp
  | cons hd t ih =>
    obtain ⟨k, p⟩ := hd
    by_cases hk : k = key
    · simp [findPos, updatePos, hk]
    · simp [findPos, updatePos, hk] at hp ⊢
      exact ih hp

theorem findPos_updatePos_ne (ps : List ((MarketId × AccountId) × Position))
    (key key' : MarketId × AccountId) (newp : Position) (h : key' ≠ key) :
    findPos (updatePos ps key newp) key' = findPos ps key' := by
  induction ps with
  | nil => rfl
  | cons hd t ih =>
    obtain ⟨k, p⟩ := hd
    by_cases hk : k = key
    · subst hk
      simp [findPos, updatePos, Ne.symm h]
    · by_cases hk' : k = key'
      · simp [findPos, updatePos, hk, hk', h]
      · simp [findPos, updatePos, hk, hk', ih]

theorem findPos_removePos_ne (ps : List ((MarketId × AccountId) × Position))
    (key key' : MarketId × AccountId) (h : key' ≠ key) :
    findPos (removePos ps key) key' = findPos ps key' := by
  induction ps with
  | nil => rfl
  | cons hd t ih =>
    obtain ⟨k, p⟩ := hd
    by_cases hk : k = key
    · subst hk
      simp [findPos, removePos, Ne.symm h]
    · by_cases hk' : k = key'
      · simp [findPos, removePos, hk, hk', h]
      · simp [findPos, removePos, hk, hk', ih]

theorem findPos_not_mem_keys (ps : List ((MarketId × AccountId) × Position))
    (key : MarketId × AccountId) (h : key ∉ ps.map Prod.fst) :
    findPos ps key = none := by
  induction ps with
  | nil => rfl
  | cons hd t ih =>
    obtain ⟨k, p⟩ := hd
    simp only [List.map_cons, List.mem_cons] at h
    push_neg at h
    simp only [findPos, if_neg (Ne.symm h.1)]
    exact ih h.2

theorem findPos_removePos_self (ps : List ((MarketId × AccountId) × Position))
    (key : MarketId × AccountId) (hnd : (ps.map Prod.fst).Nodup) :
    findPos (removePos ps key) key = none := by
  induction ps with
  | nil => rfl
  | cons hd t ih =>
    obtain ⟨k, p⟩ := hd
    simp only [List.map_cons, List.nodup_cons] at hnd
    by_cases hk : k = key
    · subst hk
      simp only [removePos, if_pos rfl]
      exact findPos_not_mem_keys t k hnd.1
    · simp only [removePos, if_neg hk, findPos]
      exact ih hnd.2

theorem findPos_append_left {ps : List ((MarketId × AccountId) × Position)}
    {key : MarketId × AccountId} {p : Position}
    (l : List ((MarketId × AccountId) × Position)) (h : findPos ps key = some p) :
    findPos (ps ++ l) key = some p := by
  induction ps with
  | nil => exact absurd h (by simp [findPos])
  | cons hd t ih =>
    obtain ⟨k, pp⟩ := hd
    by_cases hk : k = key
    · subst hk
      simp [findPos] at h ⊢
      exact h
    · simp [findPos, hk] at h ⊢
      exact ih h

theorem findPos_append_right {ps : List ((MarketId × AccountId) × Position)}
    {key : MarketId × AccountId}
    (l : List ((MarketId × AccountId) × Position)) (h : findPos ps key = none) :
    findPos (ps ++ l) key = findPos l key := by
  induction ps with
  | nil => rfl
  | cons hd t ih =>
    obtain ⟨k, pp⟩ := hd
    by_cases hk : k = key
    · simp [findPos, hk] at h
    · simp [findPos, hk] at h ⊢
      exact ih h

theorem getD_set_self {l : List Nat} {i : Nat} {v : Nat} (h : i < l.length) :
    (l.set i v).getD i 0 = v := by
  induction l generalizing i with
  | nil => simp at h
  | cons hd t ih =>
    cases i with
    | zero => rfl
    | succ j =>
      simp only [List.set, List.getD, List.getElem?_cons_succ]
      exact ih (by simpa using h)

theorem getD_set_ne {l : List Nat} {i j : Nat} {v : Nat} (h : i ≠ j) :
    (l.set i v).getD j 0 = l.getD j 0 := by
  induction l generalizing i j with
  | nil => simp [List.set]
  | cons hd t ih =>
    cases i with
    | zero =>
      cases j with
      | zero => exact absurd rfl h
      | succ j' => rfl
    | succ i' =>
      cases j with
      | zero => rfl
      | succ j' =>
        simp only [List.set, List.getD, List.getElem?_cons_succ]
        exact ih (fun hh => h (by rw [hh]))

theorem getD_append_pad0 (l : List Nat) (n j : Nat) :
    (l ++ List.replicate n 0).getD j 0 = l.getD j 0 := by
  induction l generalizing j with
  | nil =>
    simp only [List.nil_append]
    induction n generalizing j with
    | zero => rfl
    | succ n' ih =>
      cases j with
      | zero => rfl
      | succ j' =>
        simp only [List.replicate, List.getD, List.getElem?_cons_succ]
        exact ih j'
  | cons hd t ih =>
    cases j with
    | zero => rfl
    | succ j' =>
      simp only [List.cons_append, List.getD, List.getElem?_cons_succ]
      exact ih j'

theorem sum_set_getD {l : List Nat} {i : Nat} (v : Nat) (h : i < l.length) :
    (l.set i v).sum + l.getD i 0 = l.sum + v := by
  induction l generalizing i with
  | nil => simp at h
  | cons hd t ih =>
    cases i with
    | zero =>
      simp [List.set, List.getD]
      omega
    | succ j =>
      have := ih (i := j) (by simpa using h)
      simp only [List.set, List.sum_cons, List.getD_cons_succ]
      omega

theorem claim_winnings_spec {s : PredictionMarket} {caller : Nat} {market_id : Nat}
    {r : Except String Balance} {s' : PredictionMarket}
    (h : s.claim_winnings caller market_id = (r, s')) :
    (s' = s ∧ ∃ e, r = .error e)
    ∨ (s' = { s with positions := removePos s.positions (market_id, caller) }
       ∧ ∃ (m : Market) (w : Nat) (pos : Position), findMarket s.markets market_id = some m ∧ m.status = .Resolved
         ∧ m.winning_option = some w ∧ findPos s.positions (market_id, caller) = some pos
         ∧ w < pos.shares.length ∧ pos.shares.getD w 0 ≠ 0
         ∧ m.shares_per_option.getD w 0 ≠ 0
         ∧ r = .ok (pos.shares.getD w 0 * m.total_pool % W128 / m.shares_per_option.getD w 0)) := by
  unfold PredictionMarket.claim_winnings at h
  try dsimp only at h
  repeat' split at h
  all_goals cases h
  all_goals try (left; exact ⟨rfl, _, rfl⟩)
  right
  rename_i xo mk hm hst xw w hw xp pos hpos hlen hsh hpool
  refine ⟨rfl, mk, w, pos, hm, ?_, hw, hpos, ?_, hsh, hpool, rfl⟩
  · simpa using hst
  · exact Nat.lt_of_not_le hlen

theorem claim_winnings_ok_of {s : PredictionMarket} {m : Market} {pos : Position}
    (caller : Nat) (market_id : Nat) (w : Nat)
    (hm : findMarket s.markets market_id = some m) (hres : m.status = .Resolved)
    (hw : m.winning_option = some w)
    (hpos : findPos s.positions (market_id, caller) = some pos)
    (hlen : w < pos.shares.length) (hsh : pos.shares.getD w 0 ≠ 0)
    (hpool : m.shares_per_option.getD w 0 ≠ 0) :
    s.claim_winnings caller market_id =
      (.ok (pos.shares.getD w 0 * m.total_pool % W128 / m.shares_per_option.getD w 0),
       { s with positions := removePos s.positions (market_id, caller) }) := by
  unfold PredictionMarket.claim_winnings
  rw [hm]
  have hsh' : pos.shares[w]?.getD 0 ≠ 0 := by
    rw [← List.getD_eq_getElem?_getD]
    exact hsh
  have hpool' : m.shares_per_option[w]?.getD 0 ≠ 0 := by
    rw [← List.getD_eq_getElem?_getD]
    exact hpool
  simp [hres, hw, hpos, hsh', hpool', Nat.not_le_of_lt hlen]

theorem claim_winnings_no_position {s : PredictionMarket} {m : Market}
    (caller : Nat) (market_id : Nat) (w : Nat)
    (hm : findMarket s.markets market_id = some m) (hres : m.status = .Resolved)
    (hw : m.winning_option = some w)
    (hpos : findPos s.positions (market_id, caller) = none) :
    s.claim_winnings caller market_id = (.error "No position in this market", s) := by
  unfold PredictionMarket.claim_winnings
  rw [hm]
  simp [hres, hw, hpos]

theorem claim_winnings_zero_shares {s : PredictionMarket} {m : Market} {pos : Position}
    (caller : Nat) (market_id : Nat) (w : Nat)
    (hm : findMarket s.markets market_id = some m)
    (hw : m.winning_option = some w)
    (hpos : findPos s.positions (market_id, caller) = some pos)
    (hzero : pos.shares.getD w 0 = 0) :
    (s.claim_winnings caller market_id).1 = .error "No winning shares"
    ∨ ∃ e, (s.claim_winnings caller market_id).1 = .error e := by
  unfold PredictionMarket.claim_winnings
  rw [hm]
  by_cases hres : m.status = .Resolved
  · by_cases hlen : pos.shares.length ≤ w
    · left
      simp [hres, hw, hpos, hlen]
    · left
      have hzero' : pos.shares[w]?.getD 0 = 0 := by
        rw [← List.getD_eq_getElem?_getD]
        exact hzero
      simp [hres, hw, hpos, hlen, hzero']
  · right
    exact ⟨"Market not resolved", by simp [hres]⟩

theorem place_bet_spec {s : PredictionMarket} {caller : Nat} {market_id : Nat}
    {idx : Nat} {amt : Nat} {r : Except String Unit} {s' : PredictionMarket}
    (h : s.place_bet caller market_id idx amt = (r, s')) :
    (s' = s ∧ ∃ e, r = .error e)
    ∨ (∃ m, findMarket s.markets market_id = some m ∧ m.status = .Open
        ∧ idx < m.options.length ∧ r = .ok ()
        ∧ s'.markets = updateMarket s.markets market_id (bumpSlot idx amt)
        ∧ s'.config = s.config ∧ s'.next_market_id = s.next_market_id
        ∧ s'.pending_resolutions = s.pending_resolutions) := by
  unfold PredictionMarket.place_bet at h
  try dsimp only at h
  repeat' split at h
  all_goals cases h
  all_goals try (left; exact ⟨rfl, _, rfl⟩)
  all_goals right
  all_goals refine ⟨_, by assumption, ?_, ?_, rfl, rfl, rfl, rfl, rfl⟩
  all_goals simp_all

theorem place_bet_ok_oldpos {s : PredictionMarket} {m : Market} {pos : Position}
    (caller : Nat) (market_id : Nat) (idx : Nat) (amt : Nat)
    (hm : findMarket s.markets market_id = some m) (hopen : m.status = .Open)
    (hidx : idx < m.options.length)
    (hp : findPos s.positions (market_id, caller) = some pos) :
    s.place_bet caller market_id idx amt = (.ok (), { s with
      markets := updateMarket s.markets market_id (bumpSlot idx amt),
      positions :=
        updatePos s.positions (market_id, caller)
          { shares :=
              (pos.shares ++ List.replicate (m.options.length - pos.shares.length) 0).set idx
                (((pos.shares ++ List.replicate (m.options.length - pos.shares.length) 0).getD idx 0
                  + amt) % W128) } }) := by
  unfold PredictionMarket.place_bet
  rw [hm]
  simp [hopen, hp, Nat.not_le_of_lt hidx]

theorem place_bet_ok_newpos {s : PredictionMarket} {m : Market}
    (caller : Nat) (market_id : Nat) (idx : Nat) (amt : Nat)
    (hm : findMarket s.markets market_id = some m) (hopen : m.status = .Open)
    (hidx : idx < m.options.length)
    (hp : findPos s.positions (market_id, caller) = none) :
    s.place_bet caller market_id idx amt = (.ok (), { s with
      markets := updateMarket s.markets market_id (bumpSlot idx amt),
      positions := s.positions ++
        [((market_id, caller),
          { shares := (List.replicate m.options.length 0).set idx amt })] }) := by
  unfold PredictionMarket.place_bet
  rw [hm]
  simp [hopen, hp, Nat.not_le_of_lt hidx]

theorem request_resolution_spec {s : PredictionMarket} {market_id : Nat} {blk : Nat}
    {r : Except String ContractAgentRequest} {s' : PredictionMarket}
    (h : s.request_resolution market_id blk = (r, s')) :
    (s' = s ∧ ∃ e, r = .error e)
    ∨ (∃ (m : Market) (resolver : Nat), findMarket s.markets market_id = some m ∧ m.resolution_deadline ≤ blk
        ∧ m.status = .Open ∧ s.config.resolver_oracle_agent = some resolver
        ∧ r = .ok { target_agent := resolver,
                    input := { market_id := market_id, question := m.question,
                               options := m.options, resolution_criteria := m.resolution_criteria,
                               resolution_source := m.resolution_source },
                    ttl_blocks := 100,
                    callback := some { selector := [4, 0, 0, 1], gas_limit := 1000000000 } }
        ∧ s' = { s with markets := updateMarket s.markets market_id setPendingStatus }) := by
  unfold PredictionMarket.request_resolution at h
  try dsimp only at h
  repeat' split at h
  all_goals cases h
  all_goals try (left; exact ⟨rfl, _, rfl⟩)
  right
  refine ⟨_, _, by assumption, ?_, ?_, by assumption, rfl, rfl⟩
  all_goals simp_all

theorem request_resolution_ok_of {s : PredictionMarket} {m : Market} {resolver : Nat}
    (market_id : Nat) (blk : Nat)
    (hm : findMarket s.markets market_id = some m) (hdl : m.resolution_deadline ≤ blk)
    (hopen : m.status = .Open) (hres : s.config.resolver_oracle_agent = some resolver) :
    s.request_resolution market_id blk =
      (.ok { target_agent := resolver,
             input := { market_id := market_id, question := m.question,
                        options := m.options, resolution_criteria := m.resolution_criteria,
                        resolution_source := m.resolution_source },
             ttl_blocks := 100,
             callback := some { selector := [4, 0, 0, 1], gas_limit := 1000000000 } },
       { s with markets := updateMarket s.markets market_id setPendingStatus }) := by
  unfold PredictionMarket.request_resolution
  rw [hm]
  simp [hopen, hres, Nat.not_lt_of_le hdl]

theorem on_resolution_complete_spec {s : PredictionMarket} {p : AgentCallbackPayload}
    {r : Except String Unit} {s' : PredictionMarket}
    (h : s.on_resolution_complete p = (r, s')) :
    (s' = s ∧ ∃ e, r = .error e)
    ∨ (∃ res m, p.success = true ∧ p.output = some res
        ∧ findMarket s.markets res.market_id = some m ∧ m.status = .PendingResolution
        ∧ res.winning_option < m.options.length ∧ r = .ok ()
        ∧ s' = { s with
            markets := updateMarket s.markets res.market_id (setResolvedStatus res.winning_option),
            pending_resolutions :=
              s.pending_resolutions.filter (fun pr => pr.1 != res.market_id) }) := by
  unfold PredictionMarket.on_resolution_complete at h
  try dsimp only at h
  repeat' split at h
  all_goals cases h
  all_goals try (left; exact ⟨rfl, _, rfl⟩)
  right
  refine ⟨_, _, ?_, by assumption, by assumption, ?_, ?_, rfl, rfl⟩
  all_goals simp_all

theorem on_resolution_complete_ok_of {s : PredictionMarket} {p : AgentCallbackPayload}
    {res : ResolutionResult} {m : Market}
    (hsuc : p.success = true) (hout : p.output = some res)
    (hm : findMarket s.markets res.market_id = some m) (hpend : m.status = .PendingResolution)
    (hidx : res.winning_option < m.options.length) :
    s.on_resolution_complete p =
      (.ok (), { s with
         markets := updateMarket s.markets res.market_id (setResolvedStatus res.winning_option),
         pending_resolutions :=
           s.pending_resolutions.filter (fun pr => pr.1 != res.market_id) }) := by
  unfold PredictionMarket.on_resolution_complete
  simp [hsuc, hout, hm, hpend, Nat.not_le_of_lt hidx]

theorem create_market_spec {s : PredictionMarket} {caller : Nat} {question : String}
    {options : List String} {criteria source : String} {dl : Nat}
    {r : Except String MarketId} {s' : PredictionMarket}
    (h : s.create_market caller question options criteria source dl = (r, s')) :
    (s' = s ∧ ∃ e, r = .error e)
    ∨ (s.config.market_creator_agent = some caller ∧ 2 ≤ options.length
       ∧ options.length ≤ MAX_OPTIONS ∧ r = .ok s.next_market_id
       ∧ s' = { s with
           next_market_id := (s.next_market_id + 1) % W64,
           markets := s.markets ++
             [(s.next_market_id,
               { id := s.next_market_id, question := question, options := options,
                 resolution_criteria := criteria, resolution_source := source,
                 creator := caller, resolution_deadline := dl,
                 shares_per_option := List.replicate options.length 0,
                 status := .Open, winning_option := none })] }) := by
  unfold PredictionMarket.create_market at h
  try dsimp only at h
  repeat' split at h
  all_goals cases h
  all_goals try (left; exact ⟨rfl, _, rfl⟩)
  right
  refine ⟨?_, ?_, ?_, rfl, rfl⟩
  all_goals simp_all

theorem set_market_creator_spec {s : PredictionMarket} {caller agent : Nat}
    {r : Except String Unit} {s' : PredictionMarket}
    (h : s.set_market_creator caller agent = (r, s')) :
    s'.markets = s.markets ∧ s'.positions = s.positions
    ∧ s'.pending_resolutions = s.pending_resolutions
    ∧ s'.next_market_id = s.next_market_id := by
  unfold PredictionMarket.set_market_creator at h
  split at h
  all_goals cases h
  all_goals exact ⟨rfl, rfl, rfl, rfl⟩

theorem set_resolver_oracle_spec {s : PredictionMarket} {caller agent : Nat}
    {r : Except String Unit} {s' : PredictionMarket}
    (h : s.set_resolver_oracle caller agent = (r, s')) :
    s'.markets = s.markets ∧ s'.positions = s.positions
    ∧ s'.pending_resolutions = s.pending_resolutions
    ∧ s'.next_market_id = s.next_market_id := by
  unfold PredictionMarket.set_resolver_oracle at h
  split at h
  all_goals cases h
  all_goals exact ⟨rfl, rfl, rfl, rfl⟩

/-- C7: create_market fails with an AuthorizationError-classified error
unless the caller equals the configured market_creator_agent (also when
that field is unconfigured); it fails with a ValidationError-classified
error when the option count is below 2 or above 10; on success it
returns the current value of the monotonic counter (which starts at 0
in the constructor), increments the counter, and appends a new market
with status Open, winning_option none, and zero-filled
shares_per_option; on every failure the state (counter and markets
included) is unchanged. -/
theorem C7_create_market_spec :
    (∀ a, (PredictionMarket.new a).next_market_id = 0)
    ∧ (∀ (s : PredictionMarket) (caller : Nat) (question : String)
         (options : List String) (criteria source : String) (dl : Nat),
       (s.config.market_creator_agent = none →
          s.create_market caller question options criteria source dl =
            (.error "Market creator agent not configured", s)
          ∧ errKind "Market creator agent not configured" = .authorizationError)
       ∧ (∀ agent, s.config.market_creator_agent = some agent → caller ≠ agent →
            s.create_market caller question options criteria source dl =
              (.error "Only market creator agent can create markets", s)
            ∧ errKind "Only market creator agent can create markets" = .authorizationError)
       ∧ (∀ agent, s.config.market_creator_agent = some agent → caller = agent →
            options.length < 2 →
            s.create_market caller question options criteria source dl =
              (.error "Market must have at least 2 options", s)
            ∧ errKind "Market must have at least 2 options" = .validationError)
       ∧ (∀ agent, s.config.market_creator_agent = some agent → caller = agent →
            MAX_OPTIONS < options.length →
            s.create_market caller question options criteria source dl =
              (.error "Too many options", s)
            ∧ errKind "Too many options" = .validationError)
       ∧ (∀ agent, s.config.market_creator_agent = some agent → caller = agent →
            2 ≤ options.length → options.length ≤ MAX_OPTIONS →
            s.create_market caller question options criteria source dl =
              (.ok s.next_market_id,
               { s with
                 next_market_id := (s.next_market_id + 1) % W64,
                 markets := s.markets ++
                   [(s.next_market_id,
                     { id := s.next_market_id, question := question, options := options,
                       resolution_criteria := criteria, resolution_source := source,
                       creator := caller, resolution_deadline := dl,
                       shares_per_option := List.replicate options.length 0,
                       status := .Open, winning_option := none })] }))) := by
  constructor
  · intro a
    rfl
  intro s caller question options criteria source dl
  refine ⟨?_, ?_, ?_, ?_, ?_⟩
  · intro hagent
    refine ⟨?_, by decide⟩
    unfold PredictionMarket.create_market
    rw [hagent]
  · intro agent hagent hc
    refine ⟨?_, by decide⟩
    unfold PredictionMarket.create_market
    rw [hagent]
    simp [hc]
  · intro agent hagent hc hlen
    refine ⟨?_, by decide⟩
    unfold PredictionMarket.create_market
    rw [hagent]
    simp [hc, hlen]
  · intro agent hagent hc hlen
    refine ⟨?_, by decide⟩
    unfold PredictionMarket.create_market
    rw [hagent]
    have hlen' : 10 < options.length := hlen
    have h2 : ¬ options.length < 2 := by omega
    simp [hc, hlen, h2]
  · intro agent hagent hc h2 h10
    unfold PredictionMarket.create_market
    rw [hagent]
    simp [hc, Nat.not_lt_of_le h2, Nat.not_lt_of_le h10]

/-- C3 (amended): for a state containing the market, request_resolution
succeeds iff status is Open, the deadline has been reached, and a
resolver oracle agent is configured; on success the market's status
becomes PendingResolution and nothing else of the state changes; on
failure the state (the market included) is unchanged. -/
theorem C3_request_resolution_spec (s : PredictionMarket) (market_id : Nat)
    (blk : Nat) (m : Market) (hm : findMarket s.markets market_id = some m) :
    ((∃ req s', s.request_resolution market_id blk = (.ok req, s')) ↔
       (m.status = .Open ∧ m.resolution_deadline ≤ blk
        ∧ s.config.resolver_oracle_agent.isSome))
    ∧ (∀ req s', s.request_resolution market_id blk = (.ok req, s') →
         s' = { s with markets := updateMarket s.markets market_id setPendingStatus }
         ∧ findMarket s'.markets market_id = some { m with status := .PendingResolution })
    ∧ (∀ e s', s.request_resolution market_id blk = (.error e, s') → s' = s) := by
  refine ⟨⟨?_, ?_⟩, ?_, ?_⟩
  · rintro ⟨req, s', h⟩
    rcases request_resolution_spec h with ⟨_, e, he⟩ | ⟨m0, resolver, hm0, hdl, hopen, hres, _, _⟩
    · exact absurd he (by simp)
    · have hmm : m0 = m := by
        rw [hm] at hm0
        exact (Option.some.inj hm0).symm ▸ rfl
      subst hmm
      exact ⟨hopen, hdl, by simp [hres]⟩
  · rintro ⟨hopen, hdl, hsome⟩
    obtain ⟨resolver, hres⟩ := Option.isSome_iff_exists.mp hsome
    exact ⟨_, _, request_resolution_ok_of market_id blk hm hdl hopen hres⟩
  · intro req s' h
    rcases request_resolution_spec h with ⟨hs, e, he⟩ | ⟨m0, resolver, hm0, hdl, hopen, hres, hr, hs⟩
    · exact absurd he (by simp)
    · have hmm : m0 = m := by
        rw [hm] at hm0
        exact (Option.some.inj hm0).symm ▸ rfl
      subst hmm
      refine ⟨hs, ?_⟩
      rw [hs]
      show findMarket (updateMarket s.markets market_id setPendingStatus) market_id = _
      rw [findMarket_updateMarket_self, hm]
      rfl
  · intro e s' h
    rcases request_resolution_spec h with ⟨hs, _, _⟩ | ⟨_, _, _, _, _, _, hr, _⟩
    · exact hs
    · exact absurd hr (by simp)

/-- C3 counterexample: the market is Open and the current block has
reached the deadline, yet request_resolution fails (no resolver oracle
configured), refuting the claimed "succeeds iff status == Open and
current_block >= resolution_deadline". -/
theorem C3_counterexample :
    findMarket C3cex.markets 0 = some C3cexMkt
    ∧ C3cexMkt.status = .Open
    ∧ C3cexMkt.resolution_deadline ≤ 20
    ∧ (C3cex.request_resolution 0 20).1 = .error "Resolver oracle not configured"
    ∧ ¬ ∃ req s', C3cex.request_resolution 0 20 = (.ok req, s') := by
  refine ⟨rfl, rfl, by decide, rfl, ?_⟩
  rintro ⟨req, s', h⟩
  have h1 : (C3cex.request_resolution 0 20).1 = Except.ok req := by rw [h]
  rw [show (C3cex.request_resolution 0 20).1 =
      Except.error "Resolver oracle not configured" from rfl] at h1
  exact Except.noConfusion h1

theorem C3_witness : ∃ req s', C3wit.request_resolution 0 20 = (.ok req, s') :=
  (C3_request_resolution_spec C3wit 0 20 C3cexMkt rfl).1.mpr ⟨rfl, by decide, rfl⟩

/-- C4: on_resolution_complete succeeds iff the envelope's success flag
is set, its payload decodes, the named market exists with status
PendingResolution, and the decoded winning index is in range; on
success the market becomes Resolved with that winning option; on any
failure the whole state (in particular the market) is unchanged. -/
theorem C4_on_resolution_complete_spec (s : PredictionMarket) (p : AgentCallbackPayload) :
    ((∃ s', s.on_resolution_complete p = (.ok (), s')) ↔
      (p.success = true ∧ ∃ res, p.output = some res
        ∧ ∃ m, findMarket s.markets res.market_id = some m
          ∧ m.status = .PendingResolution ∧ res.winning_option < m.options.length))
    ∧ (∀ e s', s.on_resolution_complete p = (.error e, s') → s' = s)
    ∧ (∀ res m s', p.output = some res → findMarket s.markets res.market_id = some m →
        s.on_resolution_complete p = (.ok (), s') →
        s' = { s with
          markets := updateMarket s.markets res.market_id (setResolvedStatus res.winning_option),
          pending_resolutions := s.pending_resolutions.filter (fun pr => pr.1 != res.market_id) }
        ∧ findMarket s'.markets res.market_id =
            some { m with status := .Resolved, winning_option := some res.winning_option }) := by
  refine ⟨⟨?_, ?_⟩, ?_, ?_⟩
  · rintro ⟨s', h⟩
    rcases on_resolution_complete_spec h with ⟨_, e, he⟩ | ⟨res, m, hsuc, hout, hm, hpend, hidx, _, _⟩
    · exact absurd he (by simp)
    · exact ⟨hsuc, res, hout, m, hm, hpend, hidx⟩
  · rintro ⟨hsuc, res, hout, m, hm, hpend, hidx⟩
    exact ⟨_, on_resolution_complete_ok_of hsuc hout hm hpend hidx⟩
  · intro e s' h
    rcases on_resolution_complete_spec h with ⟨hs, _, _⟩ | ⟨_, _, _, _, _, _, _, hr, _⟩
    · exact hs
    · exact absurd hr (by simp)
  · intro res m s' hout hm h
    rcases on_resolution_complete_spec h with ⟨_, e, he⟩ | ⟨res0, m0, hsuc, hout0, hm0, hpend, hidx, _, hs⟩
    · exact absurd he (by simp)
    · have hres : res0 = res := by
        rw [hout] at hout0
        exact (Option.some.inj hout0).symm
      subst hres
      have hmm : m0 = m := by
        rw [hm] at hm0
        exact (Option.some.inj hm0).symm
      subst hmm
      refine ⟨hs, ?_⟩
      rw [hs]
      show findMarket (updateMarket s.markets res0.market_id
        (setResolvedStatus res0.winning_option)) res0.market_id = _
      rw [findMarket_updateMarket_self, hm]
      rfl

theorem C4_witness : ∃ s', C4s.on_resolution_complete C4p = (.ok (), s') :=
  (C4_on_resolution_complete_spec C4s C4p).1.mpr
    ⟨rfl, _, rfl, C4mkt, rfl, rfl, by decide⟩

/-- C9 (amended): for an existing market with a valid option count, the
zero-pool branch returns options.length copies of floor(100/length); in
the nonzero branch the i-th entry is the u128 product shares_i * 100
reduced mod 2^128, divided by the total, and cast to u8, which equals
the claimed floor(shares_i * 100 / total_pool) whenever the product
does not overflow (shares_i * 100 < 2^128); the entries are not
adjusted to sum to 100. -/
theorem C9_implied_odds_spec (s : PredictionMarket) (market_id : Nat) (m : Market)
    (hm : findMarket s.markets market_id = some m)
    (_hlen2 : 2 ≤ m.options.length) (hlen10 : m.options.length ≤ MAX_OPTIONS)
    (hsum : m.shares_per_option.sum < W128) :
    (m.total_pool = 0 →
       s.get_implied_odds market_id =
         some (List.replicate m.options.length (100 / m.options.length)))
    ∧ (m.total_pool ≠ 0 →
       s.get_implied_odds market_id =
         some (m.shares_per_option.map (fun sh => sh * 100 % W128 / m.total_pool % 256))
       ∧ (∀ sh ∈ m.shares_per_option, sh * 100 < W128 →
            sh * 100 % W128 / m.total_pool % 256 = sh * 100 / m.total_pool)) := by
  have hlen256 : m.options.length % 256 = m.options.length :=
    Nat.mod_eq_of_lt (lt_of_le_of_lt hlen10 (by decide))
  constructor
  · intro h0
    unfold PredictionMarket.get_implied_odds
    rw [hm]
    simp [h0, hlen256]
  · intro h0
    constructor
    · unfold PredictionMarket.get_implied_odds
      rw [hm]
      simp [h0]
    · intro sh hmem hfit
      have htp : m.total_pool = m.shares_per_option.sum := Nat.mod_eq_of_lt hsum
      have hle : sh ≤ m.shares_per_option.sum :=
        List.single_le_sum (fun x _ => Nat.zero_le x) sh hmem
      have hpos : 0 < m.total_pool := Nat.pos_of_ne_zero h0
      have hq : sh * 100 / m.total_pool ≤ 100 := by
        rw [htp] at hpos ⊢
        calc sh * 100 / m.shares_per_option.sum
            ≤ m.shares_per_option.sum * 100 / m.shares_per_option.sum :=
              Nat.div_le_div_right (Nat.mul_le_mul_right 100 hle)
          _ = 100 := by
              rw [Nat.mul_comm]
              exact Nat.mul_div_cancel 100 hpos
      rw [Nat.mod_eq_of_lt hfit]
      exact Nat.mod_eq_of_lt (lt_of_le_of_lt hq (by decide))

/-- C9 counterexample: the claimed entry floor(shares_0 * 100 / total) is
100, but get_implied_odds returns 36 for that option because the u128
product 2^122 * 100 wraps mod 2^128. -/
theorem C9_counterexample :
    C9cexMkt.total_pool ≠ 0
    ∧ C9cex.get_implied_odds 0 = some [36, 0]
    ∧ C9cexMkt.shares_per_option.getD 0 0 * 100 / C9cexMkt.total_pool = 100
    ∧ (36 : Nat) ≠ 100 := by
  refine ⟨by decide, rfl, by decide, by decide⟩

theorem C9_witness :
    C9wit.get_implied_odds 0 =
      some (List.replicate C9witMkt.options.length (100 / C9witMkt.options.length)) :=
  (C9_implied_odds_spec C9wit 0 C9witMkt rfl (by decide) (by decide) (by decide)).1 rfl

/-- C2: the source computes the payout product entirely in u128 (the
casts in the source are u128-to-u128 no-ops), so at 2^100 winning
shares and a 2^101 total pool the product 2^201 wraps mod 2^128 to 0
and the payout is 0, while the specified wide-precision formula
floor(shares * total / winning_pool) gives 2^101: the claimed overflow
headroom does not exist in the code. -/
theorem C2_overflow :
    (C2s.claim_winnings 1 0).1 = .ok 0
    ∧ C2mkt.total_pool = 2 ^ 101
    ∧ 2 ^ 100 * C2mkt.total_pool / C2mkt.shares_per_option.getD 0 0 = 2 ^ 101
    ∧ (0 : Nat) ≠ 2 ^ 101 := by
  refine ⟨rfl, by decide, by decide, by decide⟩

/-- C10: on_resolution_complete never reads the envelope's request_id or
run_id (any two envelopes agreeing on success and output give identical
results and states); request_resolution leaves pending_resolutions
untouched, the constructor starts it empty, and no operation ever adds
an entry to it (on_resolution_complete can only filter entries out). -/
theorem C10_callback_ignores_ids :
    (∀ (s : PredictionMarket) (r1 u1 r2 u2 : Nat) (suc : Bool) (out : Option ResolutionResult),
       s.on_resolution_complete { request_id := r1, run_id := u1, success := suc, output := out }
       = s.on_resolution_complete { request_id := r2, run_id := u2, success := suc, output := out })
    ∧ (∀ (s : PredictionMarket) (market_id : Nat) (blk : Nat),
       ((s.request_resolution market_id blk).2).pending_resolutions = s.pending_resolutions)
    ∧ (∀ a, (PredictionMarket.new a).pending_resolutions = [])
    ∧ (∀ (s : PredictionMarket) (c a : Nat),
       ((s.set_market_creator c a).2).pending_resolutions = s.pending_resolutions)
    ∧ (∀ (s : PredictionMarket) (c a : Nat),
       ((s.set_resolver_oracle c a).2).pending_resolutions = s.pending_resolutions)
    ∧ (∀ (s : PredictionMarket) (c : Nat) (q : String) (o : List String)
         (cr src : String) (dl : Nat),
       ((s.create_market c q o cr src dl).2).pending_resolutions = s.pending_resolutions)
    ∧ (∀ (s : PredictionMarket) (c : Nat) (market_id : Nat)
         (idx : Nat) (amt : Nat),
       ((s.place_bet c market_id idx amt).2).pending_resolutions = s.pending_resolutions)
    ∧ (∀ (s : PredictionMarket) (c : Nat) (market_id : Nat),
       ((s.claim_winnings c market_id).2).pending_resolutions = s.pending_resolutions)
    ∧ (∀ (s : PredictionMarket) (p : AgentCallbackPayload) (x : MarketId × Nat),
       x ∈ ((s.on_resolution_complete p).2).pending_resolutions → x ∈ s.pending_resolutions) := by
  refine ⟨?_, ?_, ?_, ?_, ?_, ?_, ?_, ?_, ?_⟩
  · intro s r1 u1 r2 u2 suc out
    rfl
  · intro s market_id blk
    rcases hps : s.request_resolution market_id blk with ⟨r, s'⟩
    rcases request_resolution_spec hps with ⟨hs, _, _⟩ | ⟨_, _, _, _, _, _, _, hs⟩
    all_goals rw [hs]
  · intro a
    rfl
  · intro s c a
    rcases hps : s.set_market_creator c a with ⟨r, s'⟩
    exact (set_market_creator_spec hps).2.2.1
  · intro s c a
    rcases hps : s.set_resolver_oracle c a with ⟨r, s'⟩
    exact (set_resolver_oracle_spec hps).2.2.1
  · intro s c q o cr src dl
    rcases hps : s.create_market c q o cr src dl with ⟨r, s'⟩
    rcases create_market_spec hps with ⟨hs, _, _⟩ | ⟨_, _, _, _, hs⟩
    all_goals rw [hs]
  · intro s c market_id idx amt
    rcases hps : s.place_bet c market_id idx amt with ⟨r, s'⟩
    rcases place_bet_spec hps with ⟨hs, _, _⟩ | ⟨_, _, _, _, _, _, _, _, hpend⟩
    · rw [hs]
    · exact hpend
  · intro s c market_id
    rcases hps : s.claim_winnings c market_id with ⟨r, s'⟩
    rcases claim_winnings_spec hps with ⟨hs, _, _⟩ | ⟨hs, _⟩
    all_goals rw [hs]
  · intro s p x hx
    rcases hps : s.on_resolution_complete p with ⟨r, s'⟩
    rw [hps] at hx
    rcases on_resolution_complete_spec hps with ⟨hs, _, _⟩ | ⟨res, m, _, _, _, _, _, _, hs⟩
    · rw [hs] at hx
      exact hx
    · rw [hs] at hx
      exact List.mem_of_mem_filter hx

theorem C10_witness : ((0 : MarketId), (5 : Nat)) ∈ C10s.pending_resolutions :=
  C10_callback_ignores_ids.2.2.2.2.2.2.2.2 C10s C10p (0, 5) (by decide)

theorem findPos_append_single_ne (ps : List ((MarketId × AccountId) × Position))
    (key k : MarketId × AccountId) (p : Position) (h : k ≠ key) :
    findPos (ps ++ [(key, p)]) k = findPos ps k := by
  cases hf : findPos ps k with
  | some q => exact findPos_append_left _ hf
  | none =>
    rw [findPos_append_right _ hf]
    simp [findPos, Ne.symm h]

theorem findPos_singleton_self (k : MarketId × AccountId) (p : Position) :
    findPos [(k, p)] k = some p := by
  simp [findPos]

/-- C5 (amended): a place_bet on an Open market with a valid option
index succeeds and changes exactly two slots: the market's
shares_per_option[idx] and the caller's position share at idx, each
becoming (old + amt) mod 2^128 (hence old + amt exactly whenever that
sum fits in u128); every other share slot, every other market, every
other position, and the configuration, counter, and pending list are
untouched; the market's total_pool (defined as the wrapped sum of
shares_per_option, so the claimed total_pool == sum(shares_per_option)
invariant holds by construction) grows by amt mod 2^128 when the
touched slot does not wrap. -/
theorem C5_place_bet_frame (s : PredictionMarket) (caller : Nat) (market_id : Nat)
    (idx : Nat) (amt : Nat) (m : Market)
    (hm : findMarket s.markets market_id = some m) (hopen : m.status = .Open)
    (hidx : idx < m.options.length) (hsl : m.shares_per_option.length = m.options.length)
    (hamt : amt < W128) :
    (s.place_bet caller market_id idx amt).1 = .ok ()
    ∧ posShare ((s.place_bet caller market_id idx amt).2) market_id caller idx
        = (posShare s market_id caller idx + amt) % W128
    ∧ findMarket ((s.place_bet caller market_id idx amt).2).markets market_id
        = some (bumpSlot idx amt m)
    ∧ (bumpSlot idx amt m).shares_per_option.getD idx 0
        = (m.shares_per_option.getD idx 0 + amt) % W128
    ∧ (∀ j, j ≠ idx →
        (bumpSlot idx amt m).shares_per_option.getD j 0 = m.shares_per_option.getD j 0)
    ∧ (bumpSlot idx amt m).status = m.status
    ∧ (bumpSlot idx amt m).options = m.options
    ∧ (bumpSlot idx amt m).winning_option = m.winning_option
    ∧ (m.shares_per_option.getD idx 0 + amt < W128 →
        (bumpSlot idx amt m).total_pool = (m.total_pool + amt) % W128)
    ∧ (∀ id', id' ≠ market_id →
        findMarket ((s.place_bet caller market_id idx amt).2).markets id'
          = findMarket s.markets id')
    ∧ (∀ j, j ≠ idx →
        posShare ((s.place_bet caller market_id idx amt).2) market_id caller j
          = posShare s market_id caller j)
    ∧ (∀ k, k ≠ (market_id, caller) →
        findPos ((s.place_bet caller market_id idx amt).2).positions k
          = findPos s.positions k)
    ∧ ((s.place_bet caller market_id idx amt).2).config = s.config
    ∧ ((s.place_bet caller market_id idx amt).2).next_market_id = s.next_market_id
    ∧ ((s.place_bet caller market_id idx amt).2).pending_resolutions
        = s.pending_resolutions := by
  have hsl' : idx < m.shares_per_option.length := by omega
  have hslot : (bumpSlot idx amt m).shares_per_option.getD idx 0
      = (m.shares_per_option.getD idx 0 + amt) % W128 := getD_set_self hsl'
  have hslotne : ∀ j, j ≠ idx →
      (bumpSlot idx amt m).shares_per_option.getD j 0 = m.shares_per_option.getD j 0 := by
    intro j hj
    exact getD_set_ne (fun hh => hj hh.symm)
  have hpool : m.shares_per_option.getD idx 0 + amt < W128 →
      (bumpSlot idx amt m).total_pool = (m.total_pool + amt) % W128 := by
    intro hfit
    have hv : (m.shares_per_option.getD idx 0 + amt) % W128
        = m.shares_per_option.getD idx 0 + amt := Nat.mod_eq_of_lt hfit
    have hset := sum_set_getD (l := m.shares_per_option) (i := idx)
      ((m.shares_per_option.getD idx 0 + amt) % W128) hsl'
    rw [hv] at hset
    show (m.shares_per_option.set idx
        ((m.shares_per_option.getD idx 0 + amt) % W128)).sum % W128
      = (m.shares_per_option.sum % W128 + amt) % W128
    rw [hv]
    have h2 : m.shares_per_option.sum + (m.shares_per_option.getD idx 0 + amt)
        = (m.shares_per_option.sum + amt) + m.shares_per_option.getD idx 0 := by
      ring
    rw [h2] at hset
    have hsum' : (m.shares_per_option.set idx
        (m.shares_per_option.getD idx 0 + amt)).sum = m.shares_per_option.sum + amt :=
      Nat.add_right_cancel hset
    rw [hsum', Nat.add_mod m.shares_per_option.sum amt W128, Nat.mod_eq_of_lt hamt]
  cases hp : findPos s.positions (market_id, caller) with
  | some pos =>
    have heq := place_bet_ok_oldpos caller market_id idx amt hm hopen hidx hp
    refine ⟨by rw [heq], ?_, ?_, hslot, hslotne, rfl, rfl, rfl, hpool, ?_, ?_, ?_,
      by rw [heq], by rw [heq], by rw [heq]⟩
    · rw [heq]
      show posShare _ market_id caller idx = _
      unfold posShare
      rw [hp]
      dsimp only
      rw [findPos_updatePos_self _ _ _ (by rw [hp]; rfl)]
      dsimp only
      have hpadlen : idx <
          (pos.shares ++ List.replicate (m.options.length - pos.shares.length) 0).length := by
        rw [List.length_append, List.length_replicate]
        omega
      rw [getD_set_self hpadlen, getD_append_pad0]
    · rw [heq]
      show findMarket (updateMarket s.markets market_id (bumpSlot idx amt)) market_id = _
      rw [findMarket_updateMarket_self, hm]
      rfl
    · intro id' hid
      rw [heq]
      exact findMarket_updateMarket_ne _ _ _ _ hid
    · intro j hj
      rw [heq]
      show posShare _ market_id caller j = _
      unfold posShare
      rw [hp]
      dsimp only
      rw [findPos_updatePos_self _ _ _ (by rw [hp]; rfl)]
      dsimp only
      rw [getD_set_ne (fun hh => hj hh.symm), getD_append_pad0]
    · intro k hk
      rw [heq]
      exact findPos_updatePos_ne _ _ _ _ hk
  | none =>
    have heq := place_bet_ok_newpos caller market_id idx amt hm hopen hidx hp
    refine ⟨by rw [heq], ?_, ?_, hslot, hslotne, rfl, rfl, rfl, hpool, ?_, ?_, ?_,
      by rw [heq], by rw [heq], by rw [heq]⟩
    · rw [heq]
      show posShare _ market_id caller idx = _
      unfold posShare
      rw [hp]
      dsimp only
      rw [findPos_append_right _ hp, findPos_singleton_self]
      dsimp only
      have hrl : idx < (List.replicate m.options.length (0 : Balance)).length := by
        rw [List.length_replicate]
        omega
      rw [getD_set_self hrl, Nat.zero_add, Nat.mod_eq_of_lt hamt]
    · rw [heq]
      show findMarket (updateMarket s.markets market_id (bumpSlot idx amt)) market_id = _
      rw [findMarket_updateMarket_self, hm]
      rfl
    · intro id' hid
      rw [heq]
      exact findMarket_updateMarket_ne _ _ _ _ hid
    · intro j hj
      rw [heq]
      show posShare _ market_id caller j = _
      unfold posShare
      rw [hp]
      dsimp only
      rw [findPos_append_right _ hp, findPos_singleton_self]
      dsimp only
      rw [getD_set_ne (fun hh => hj hh.symm)]
      have h0 := getD_append_pad0 [] m.options.length j
      simp only [List.nil_append] at h0
      rw [h0]
      rfl
    · intro k hk
      rw [heq]
      exact findPos_append_single_ne _ _ _ _ hk

/-- C5 counterexample: a successful bet of 2^127 on a slot already
holding 2^127 wraps the u128 slot (and the caller's position slot) to
0 instead of increasing each by the amount: the claimed "+amt" change
fails at representable inputs. -/
theorem C5_counterexample :
    (C5cex.place_bet 7 0 0 (2 ^ 127)).1 = .ok ()
    ∧ (findMarket (C5cex.place_bet 7 0 0 (2 ^ 127)).2.markets 0).map
        (fun mm => mm.shares_per_option.getD 0 0) = some 0
    ∧ posShare (C5cex.place_bet 7 0 0 (2 ^ 127)).2 0 7 0 = 0
    ∧ C5cexMkt.shares_per_option.getD 0 0 + 2 ^ 127 = 2 ^ 128
    ∧ (0 : Nat) ≠ 2 ^ 128 := by
  refine ⟨rfl, rfl, rfl, by decide, by decide⟩

theorem C5_witness :
    (C5wit.place_bet 1 0 0 3).1 = .ok ()
    ∧ posShare (C5wit.place_bet 1 0 0 3).2 0 1 0 = (posShare C5wit 0 1 0 + 3) % W128 := by
  have h := C5_place_bet_frame C5wit 1 0 0 3 C5witMkt rfl rfl (by decide) rfl (by decide)
  exact ⟨h.1, h.2.1⟩

/-- C8: a successful claim_winnings deletes the caller's position record
entirely (losing-option shares with it), so a second claim by the same
account for the same market fails with the NotFoundError message "No
position in this market" and leaves the state unchanged; and an account
whose shares at the winning option are zero — including an absent
position or one that does not extend to the winning index — can never
successfully claim. -/
theorem C8_claim_once (s : PredictionMarket) (caller : Nat) (market_id : Nat) :
    (∀ (v : Nat) (s' : PredictionMarket), (s.positions.map Prod.fst).Nodup →
       s.claim_winnings caller market_id = (.ok v, s') →
       findPos s'.positions (market_id, caller) = none
       ∧ s'.claim_winnings caller market_id = (.error "No position in this market", s'))
    ∧ (∀ (m : Market) (w : Nat), findMarket s.markets market_id = some m →
        m.winning_option = some w → posShare s market_id caller w = 0 →
        ∀ (v : Nat) (s' : PredictionMarket),
          s.claim_winnings caller market_id ≠ (.ok v, s')) := by
  constructor
  · intro v s' hnd h
    rcases claim_winnings_spec h with ⟨_, e, he⟩ | ⟨hs, m, w, pos, hm, hres, hw, _, _, _, _, _⟩
    · exact absurd he (by simp)
    · have hpos' : findPos s'.positions (market_id, caller) = none := by
        rw [hs]
        exact findPos_removePos_self _ _ hnd
      have hmarket' : findMarket s'.markets market_id = some m := by
        rw [hs]
        exact hm
      exact ⟨hpos', claim_winnings_no_position caller market_id w hmarket' hres hw hpos'⟩
  · intro m w hm hw hzero v s' h
    rcases claim_winnings_spec h with ⟨_, e, he⟩ | ⟨_, m0, w0, pos, hm0, _, hw0, hpos, _, hsh, _, _⟩
    · exact absurd he (by simp)
    · have hmm : m0 = m := by
        rw [hm] at hm0
        exact (Option.some.inj hm0).symm
      subst hmm
      have hww : w0 = w := by
        rw [hw] at hw0
        exact (Option.some.inj hw0).symm
      subst hww
      apply hsh
      unfold posShare at hzero
      rw [hpos] at hzero
      exact hzero

theorem C8_witness :
    (findPos C8s2.positions (0, 1) = none
     ∧ C8s2.claim_winnings 1 0 = (.error "No position in this market", C8s2))
    ∧ ∀ (v : Nat) (s' : PredictionMarket), C8s.claim_winnings 2 0 ≠ (.ok v, s') :=
  ⟨(C8_claim_once C8s 1 0).1 4 C8s2 (by decide) (by decide),
   (C8_claim_once C8s 2 0).2 C8mkt 0 rfl rfl (by decide)⟩

theorem StateInv_updateMarket {ms : List (MarketId × Market)} {market_id : Nat}
    {f : Market → Market} (hinv : ∀ x ∈ ms, MarketInv x.2)
    (hf : ∀ m, findMarket ms market_id = some m → MarketInv m → MarketInv (f m)) :
    ∀ x ∈ updateMarket ms market_id f, MarketInv x.2 := by
  intro x hx
  rcases mem_updateMarket hx with hmem | ⟨m, hm, hxe⟩
  · exact hinv x hmem
  · subst hxe
    exact hf m hm (hinv (market_id, m) (findMarket_mem hm))

theorem StateInv_step {s s' : PredictionMarket} (hstep : Step s s') (hinv : StateInv s) :
    StateInv s' := by
  cases hstep with
  | set_creator c a =>
    rcases hps : s.set_market_creator c a with ⟨r, s2⟩
    dsimp only
    intro x hx
    rw [(set_market_creator_spec hps).1] at hx
    exact hinv x hx
  | set_oracle c a =>
    rcases hps : s.set_resolver_oracle c a with ⟨r, s2⟩
    dsimp only
    intro x hx
    rw [(set_resolver_oracle_spec hps).1] at hx
    exact hinv x hx
  | create c q o cr src dl =>
    rcases hps : s.create_market c q o cr src dl with ⟨r, s2⟩
    dsimp only
    rcases create_market_spec hps with ⟨hs, _, _⟩ | ⟨_, _, _, _, hs⟩
    · rw [hs]
      exact hinv
    · rw [hs]
      intro x hx
      rcases List.mem_append.mp hx with hmem | hnew
      · exact hinv x hmem
      · rcases List.mem_singleton.mp hnew with rfl
        refine ⟨by simp, by simp, by simp⟩
  | bet c market_id idx amt =>
    rcases hps : s.place_bet c market_id idx amt with ⟨r, s2⟩
    dsimp only
    rcases place_bet_spec hps with ⟨hs, _, _⟩ | ⟨m, _, _, _, _, hmk, _, _, _⟩
    · rw [hs]
      exact hinv
    · intro x hx
      rw [hmk] at hx
      refine StateInv_updateMarket hinv ?_ x hx
      intro mm _ hmm
      obtain ⟨h1, h2, h3⟩ := hmm
      exact ⟨h1, h2, by simpa [bumpSlot] using h3⟩
  | request market_id blk =>
    rcases hps : s.request_resolution market_id blk with ⟨r, s2⟩
    dsimp only
    rcases request_resolution_spec hps with ⟨hs, _, _⟩ | ⟨m, resolver, hm, _, hopen, _, _, hs⟩
    · rw [hs]
      exact hinv
    · rw [hs]
      intro x hx
      refine StateInv_updateMarket hinv ?_ x hx
      intro mm hmm hminv
      have hmmeq : mm = m := by
        rw [hm] at hmm
        exact (Option.some.inj hmm).symm
      subst hmmeq
      obtain ⟨h1, h2, h3⟩ := hminv
      have hnone : mm.winning_option = none := by
        rcases hiso : mm.winning_option.isSome with hfalse | htrue
        · exact Option.not_isSome_iff_eq_none.mp (by rw [hiso]; simp)
        · have := h1.mp hiso
          rw [hopen] at this
          exact absurd this (by simp)
      refine ⟨?_, ?_, h3⟩
      · show mm.winning_option.isSome ↔ MarketStatus.PendingResolution = .Resolved
        rw [hnone]
        simp
      · intro w hw
        simp only [setPendingStatus] at hw
        rw [hnone] at hw
        exact absurd hw (by simp)
  | callback p =>
    rcases hps : s.on_resolution_complete p with ⟨r, s2⟩
    dsimp only
    rcases on_resolution_complete_spec hps with ⟨hs, _, _⟩ | ⟨res, m, _, _, hm, _, hidx, _, hs⟩
    · rw [hs]
      exact hinv
    · rw [hs]
      intro x hx
      refine StateInv_updateMarket hinv ?_ x hx
      intro mm hmm hminv
      have hmmeq : mm = m := by
        rw [hm] at hmm
        exact (Option.some.inj hmm).symm
      subst hmmeq
      obtain ⟨h1, h2, h3⟩ := hminv
      refine ⟨by simp [setResolvedStatus], ?_, h3⟩
      intro w hw
      have hww : w = res.winning_option := by
        simp only [setResolvedStatus] at hw
        exact (Option.some.inj hw).symm
      subst hww
      simpa [setResolvedStatus] using hidx
  | claim c market_id =>
    rcases hps : s.claim_winnings c market_id with ⟨r, s2⟩
    dsimp only
    rcases claim_winnings_spec hps with ⟨hs, _, _⟩ | ⟨hs, _⟩
    all_goals rw [hs]
    · exact hinv
    · exact hinv

theorem Step_status_mono {s s' : PredictionMarket} (hstep : Step s s') :
    ∀ (market_id : Nat) (m : Market), findMarket s.markets market_id = some m →
      ∃ m', findMarket s'.markets market_id = some m'
        ∧ statusRank m.status ≤ statusRank m'.status := by
  cases hstep with
  | set_creator c a =>
    intro market_id m hm
    rcases hps : s.set_market_creator c a with ⟨r, s2⟩
    dsimp only
    exact ⟨m, by rw [(set_market_creator_spec hps).1]; exact hm, Nat.le_refl _⟩
  | set_oracle c a =>
    intro market_id m hm
    rcases hps : s.set_resolver_oracle c a with ⟨r, s2⟩
    dsimp only
    exact ⟨m, by rw [(set_resolver_oracle_spec hps).1]; exact hm, Nat.le_refl _⟩
  | create c q o cr src dl =>
    intro market_id m hm
    rcases hps : s.create_market c q o cr src dl with ⟨r, s2⟩
    dsimp only
    rcases create_market_spec hps with ⟨hs, _, _⟩ | ⟨_, _, _, _, hs⟩
    · rw [hs]
      exact ⟨m, hm, Nat.le_refl _⟩
    · rw [hs]
      exact ⟨m, findMarket_append_left _ hm, Nat.le_refl _⟩
  | bet c market_id2 idx amt =>
    intro market_id m hm
    rcases hps : s.place_bet c market_id2 idx amt with ⟨r, s2⟩
    dsimp only
    rcases place_bet_spec hps with ⟨hs, _, _⟩ | ⟨m0, _, _, _, _, hmk, _, _, _⟩
    · rw [hs]
      exact ⟨m, hm, Nat.le_refl _⟩
    · by_cases hid : market_id = market_id2
      · subst hid
        refine ⟨bumpSlot idx amt m, ?_, ?_⟩
        · rw [hmk, findMarket_updateMarket_self, hm]
          rfl
        · simp [bumpSlot]
      · exact ⟨m, by rw [hmk, findMarket_updateMarket_ne _ _ _ _ hid]; exact hm, Nat.le_refl _⟩
  | request market_id2 blk =>
    intro market_id m hm
    rcases hps : s.request_resolution market_id2 blk with ⟨r, s2⟩
    dsimp only
    rcases request_resolution_spec hps with ⟨hs, _, _⟩ | ⟨m0, resolver, hm0, _, hopen, _, _, hs⟩
    · rw [hs]
      exact ⟨m, hm, Nat.le_refl _⟩
    · by_cases hid : market_id = market_id2
      · have hm' : findMarket s.markets market_id2 = some m := by
          rw [← hid]
          exact hm
        have hmm : m = m0 := by
          rw [hm0] at hm'
          exact (Option.some.inj hm').symm
        refine ⟨setPendingStatus m0, ?_, ?_⟩
        · rw [hs, hid]
          show findMarket (updateMarket s.markets market_id2 setPendingStatus) market_id2 = _
          rw [findMarket_updateMarket_self, hm0]
          rfl
        · rw [hmm, hopen]
          simp only [setPendingStatus]
          decide
      · refine ⟨m, ?_, Nat.le_refl _⟩
        rw [hs]
        show findMarket (updateMarket s.markets market_id2 setPendingStatus) market_id = _
        rw [findMarket_updateMarket_ne _ _ _ _ hid]
        exact hm
  | callback p =>
    intro market_id m hm
    rcases hps : s.on_resolution_complete p with ⟨r, s2⟩
    dsimp only
    rcases on_resolution_complete_spec hps with ⟨hs, _, _⟩ | ⟨res, m0, _, _, hm0, hpend, _, _, hs⟩
    · rw [hs]
      exact ⟨m, hm, Nat.le_refl _⟩
    · by_cases hid : market_id = res.market_id
      · have hm' : findMarket s.markets res.market_id = some m := by
          rw [← hid]
          exact hm
        have hmm : m = m0 := by
          rw [hm0] at hm'
          exact (Option.some.inj hm').symm
        refine ⟨setResolvedStatus res.winning_option m0, ?_, ?_⟩
        · rw [hs, hid]
          show findMarket (updateMarket s.markets res.market_id
            (setResolvedStatus res.winning_option)) res.market_id = _
          rw [findMarket_updateMarket_self, hm0]
          rfl
        · rw [hmm, hpend]
          simp only [setResolvedStatus]
          decide
      · refine ⟨m, ?_, Nat.le_refl _⟩
        rw [hs]
        show findMarket (updateMarket s.markets res.market_id
          (setResolvedStatus res.winning_option)) market_id = _
        rw [findMarket_updateMarket_ne _ _ _ _ hid]
        exact hm
  | claim c market_id2 =>
    intro market_id m hm
    rcases hps : s.claim_winnings c market_id2 with ⟨r, s2⟩
    dsimp only
    rcases claim_winnings_spec hps with ⟨hs, _, _⟩ | ⟨hs, _⟩
    all_goals rw [hs]
    · exact ⟨m, hm, Nat.le_refl _⟩
    · exact ⟨m, hm, Nat.le_refl _⟩

/-- C6: every reachable contract state satisfies, for every stored
market, winning_option.isSome iff status == Resolved, a set winning
index below options.len(), and shares_per_option aligned with options;
and every operation (any Step, on any state) moves each market's
status only forward along Open, PendingResolution, Resolved — markets
are never deleted and never reopened. -/
theorem C6_invariants :
    (∀ s, Reachable s → StateInv s)
    ∧ (∀ s s', Step s s' → ∀ (market_id : Nat) (m : Market),
        findMarket s.markets market_id = some m →
        ∃ m', findMarket s'.markets market_id = some m'
          ∧ statusRank m.status ≤ statusRank m'.status) := by
  constructor
  · intro s h
    induction h with
    | init admin =>
      intro x hx
      exact absurd hx (by simp [PredictionMarket.new])
    | step _ hstep ih =>
      exact StateInv_step hstep ih
  · intro s s' hstep
    exact Step_status_mono hstep

theorem C6_witness :
    StateInv (PredictionMarket.new 0)
    ∧ ∃ m', findMarket ((C6ws.on_resolution_complete C6wp).2).markets 0 = some m'
        ∧ statusRank C6wmkt.status ≤ statusRank m'.status :=
  ⟨C6_invariants.1 _ (Reachable.init 0),
   C6_invariants.2 C6ws _ (Step.callback C6ws C6wp) 0 C6wmkt rfl⟩

theorem claimAll_le (market_id : Nat) (w : Nat) (accs : List Nat) :
    ∀ (s : PredictionMarket) (m : Market),
      findMarket s.markets market_id = some m →
      m.winning_option = some w →
      accs.Nodup →
      m.shares_per_option.getD w 0 * (claimAll market_id s accs).1
        ≤ m.total_pool * (accs.map (fun a => posShare s market_id a w)).sum := by
  induction accs with
  | nil =>
    intro s m hm hw hnd
    simp [claimAll]
  | cons a rest ih =>
    intro s m hm hw hnd
    simp only [claimAll]
    rcases hr : s.claim_winnings a market_id with ⟨res, s2⟩
    rcases claim_winnings_spec hr with ⟨hs, e, he⟩ |
      ⟨hs, m0, w0, pos, hm0, _, hw0, hpos, _, _, _, hres⟩
    · subst he
      dsimp only
      rw [hs]
      have hrest := ih s m hm hw (List.Nodup.of_cons hnd)
      calc m.shares_per_option.getD w 0 * (claimAll market_id s rest).1
          ≤ m.total_pool * (rest.map (fun a => posShare s market_id a w)).sum := hrest
        _ ≤ m.total_pool * ((a :: rest).map (fun a => posShare s market_id a w)).sum := by
            rw [List.map_cons, List.sum_cons]
            exact Nat.mul_le_mul_left _ (Nat.le_add_left _ _)
    · subst hres
      dsimp only
      have hmm : m0 = m := by
        rw [hm] at hm0
        exact (Option.some.inj hm0).symm
      have hww : w0 = w := by
        rw [hmm] at hw0
        rw [hw] at hw0
        exact (Option.some.inj hw0).symm
      rw [hmm, hww]
      have hsh : posShare s market_id a w = pos.shares.getD w 0 := by
        unfold posShare
        rw [hpos]
      have hkeys : ∀ a2 ∈ rest, posShare s2 market_id a2 w = posShare s market_id a2 w := by
        intro a2 ha2
        have hne : a2 ≠ a := by
          intro hh
          subst hh
          exact (List.nodup_cons.mp hnd).1 ha2
        unfold posShare
        rw [hs]
        dsimp only
        rw [findPos_removePos_ne _ _ _ (by simp [hne])]
      have hm2 : findMarket s2.markets market_id = some m := by
        rw [hs]
        exact hm
      have hrest := ih s2 m hm2 hw (List.Nodup.of_cons hnd)
      have hmaps : (rest.map (fun a2 => posShare s2 market_id a2 w)).sum
          = (rest.map (fun a2 => posShare s market_id a2 w)).sum := by
        rw [List.map_congr_left hkeys]
      rw [hmaps] at hrest
      have hWp : m.shares_per_option.getD w 0 *
          (pos.shares.getD w 0 * m.total_pool % W128 / m.shares_per_option.getD w 0)
          ≤ pos.shares.getD w 0 * m.total_pool := by
        calc m.shares_per_option.getD w 0 *
            (pos.shares.getD w 0 * m.total_pool % W128 / m.shares_per_option.getD w 0)
            ≤ pos.shares.getD w 0 * m.total_pool % W128 := by
              rw [Nat.mul_comm]
              exact Nat.div_mul_le_self _ _
          _ ≤ pos.shares.getD w 0 * m.total_pool := Nat.mod_le _ _
      calc m.shares_per_option.getD w 0 *
          (pos.shares.getD w 0 * m.total_pool % W128 / m.shares_per_option.getD w 0
            + (claimAll market_id s2 rest).1)
          = m.shares_per_option.getD w 0 *
              (pos.shares.getD w 0 * m.total_pool % W128 / m.shares_per_option.getD w 0)
            + m.shares_per_option.getD w 0 * (claimAll market_id s2 rest).1 := by
            rw [Nat.mul_add]
        _ ≤ pos.shares.getD w 0 * m.total_pool
            + m.shares_per_option.getD w 0 * (claimAll market_id s2 rest).1 :=
            Nat.add_le_add_right hWp _
        _ ≤ pos.shares.getD w 0 * m.total_pool
            + m.total_pool * (rest.map (fun a2 => posShare s market_id a2 w)).sum :=
            Nat.add_le_add_left hrest _
        _ = m.total_pool * ((a :: rest).map (fun a2 => posShare s market_id a2 w)).sum := by
            rw [List.map_cons, List.sum_cons, hsh]
            ring

/-- C1 (amended): for a Resolved market with a nonzero winning pool, if
every account holding winning shares claims exactly once (each listed
once, their winning shares adding up to the winning pool), the sum of
the payouts returned is at most the market's total_pool: settlement
never creates value, but can destroy (strand) up to one unit per
claimant through floor rounding. -/
theorem C1_no_value_created (s : PredictionMarket) (market_id : Nat) (m : Market) (w : Nat)
    (accs : List Nat)
    (hm : findMarket s.markets market_id = some m)
    (_hres : m.status = .Resolved)
    (hw : m.winning_option = some w)
    (hW : m.shares_per_option.getD w 0 ≠ 0)
    (hnd : accs.Nodup)
    (hsum : (accs.map (fun a => posShare s market_id a w)).sum
        = m.shares_per_option.getD w 0) :
    (claimAll market_id s accs).1 ≤ m.total_pool := by
  have h := claimAll_le market_id w accs s m hm hw hnd
  rw [hsum] at h
  rw [Nat.mul_comm m.total_pool _] at h
  exact Nat.le_of_mul_le_mul_left h (Nat.pos_of_ne_zero hW)

/-- C1 counterexample: the two winning holders (1 share each, winning
pool 2, total pool 3) each receive floor(1*3/2) = 1, so settlement pays
out 2, strictly less than total_pool = 3: the claimed exact equality
fails. -/
theorem C1_counterexample :
    C1mkt.status = .Resolved
    ∧ C1mkt.winning_option = some 0
    ∧ C1mkt.shares_per_option.getD 0 0 = 2
    ∧ posShare C1cex 0 1 0 + posShare C1cex 0 2 0 = 2
    ∧ (claimAll 0 C1cex [1, 2]).1 = 2
    ∧ C1mkt.total_pool = 3
    ∧ (2 : Nat) ≠ 3 := by
  refine ⟨rfl, rfl, by decide, by decide, by decide, by decide, by decide⟩

theorem C1_witness : (claimAll 0 C1cex [1, 2]).1 ≤ C1mkt.total_pool :=
  C1_no_value_created C1cex 0 C1mkt 0 [1, 2] rfl rfl rfl (by decide) (by decide) (by decide)

theorem C7_witness :
    C7state.config.market_creator_agent = some 10
    ∧ C7state.create_market 10 "q" ["Yes", "No"] "crit" "src" 5 = (.ok 0, C7state2) := by
  refine ⟨rfl, ?_⟩
  have h := (C7_create_market_spec.2 C7state 10 "q" ["Yes", "No"] "crit" "src" 5).2.2.2.2
      10 rfl rfl (by decide) (by decide)
  rw [h]
  decide
